import Mathlib

/-!
Shallow embedding of the `image2csv` pipeline (OCR extraction → line
formatting → vendor regex parsing) and verification of its specification.

Sources embedded:
  * `src/image2csv/format.py`  — `BasicLinesFormatter`
  * `src/image2csv/extract.py` — `OCRExtractor.extract` (OCR engine and
    filesystem are external collaborators, modelled as oracle functions)
  * `src/image2csv/parse/base.py`  — `BaseParser` properties and `EmptyResults`
  * `src/image2csv/parse/flash.py` — `FlashBenefitsParser.parse_text_lines`
  * `src/image2csv/parse/xp.py`    — `XPCardNotificationsParser.parse_text_lines`

Python strings are modelled as `String` / `List Char`; Python `dict`s keep
insertion order, so they are modelled as ordered association lists.
-/

namespace Image2Csv

/-! ### A small Python-`re` engine

The repository's regexes only ever repeat single-character classes
(`.+`, `\s*`, `[.\d]+`, `[\d]{2}`), so the abstract syntax restricts `*`,
`+` and `{n}` to character classes.  Matching returns the list of all
(backtracking-ordered) ways to match a prefix of the input, each as the
remaining suffix plus the captures made; Python's engine returns the first
element of that list (leftmost match, greedy backtracking priority).
-/

/-- Character classes occurring in the repository's patterns.
`anyNoNL` is `.` (any character except a newline, Python default mode),
`digit` is `\d` (ASCII range suffices for the statements proved here),
`space` is `\s` (the ASCII whitespace characters Python lists for `\s`),
`oneOf cs` is a literal character class such as `[$S]`, and
`dotOrDigit` is the class `[.\d]`. -/
inductive CC : Type
  | anyNoNL : CC
  | digit : CC
  | space : CC
  | oneOf (cs : List Char) : CC
  | dotOrDigit : CC
deriving DecidableEq, Repr

def CC.matches : CC → Char → Bool
  | .anyNoNL, c => c ≠ '\n'
  | .digit, c => '0' ≤ c && c ≤ '9'
  | .space, c => c == ' ' || c == '\t' || c == '\n' || c == '\r' || c == '\x0b' || c == '\x0c'
  | .oneOf cs, c => c ∈ cs
  | .dotOrDigit, c => c = '.' || ('0' ≤ c && c ≤ '9')

/-- Abstract syntax for the fragment of Python regular expressions used by
the repository.  `group n r` is a numbered capture group `(?P<...>r)`;
repetition operators are restricted to character classes, which is all the
source patterns use. -/
inductive Re : Type
  | eps : Re
  | cc (c : CC) : Re
  | lit (s : List Char) : Re
  | cat (r1 r2 : Re) : Re
  | alt (r1 r2 : Re) : Re
  | starC (c : CC) : Re
  | plusC (c : CC) : Re
  | opt (r : Re) : Re
  | group (n : Nat) (r : Re) : Re
  | rep (n : Nat) (c : CC) : Re
deriving Repr

/-- Captures: group number to captured text, in capture order. -/
abbrev Caps := List (Nat × String)

/-- All ways (in Python backtracking priority order: leftmost alternative
first, greedy repetition longest first) for `r` to match a prefix of `s`.
Each result is the remaining suffix together with the captures made. -/
def Re.mtch : Re → List Char → List (List Char × Caps)
  | .eps, s => [(s, [])]
  | .cc _, [] => []
  | .cc c, x :: rest => if CC.matches c x then [(rest, [])] else []
  | .lit l, s => if l.isPrefixOf s then [(s.drop l.length, [])] else []
  | .cat r1 r2, s =>
      (Re.mtch r1 s).flatMap fun p =>
        (Re.mtch r2 p.1).map fun q => (q.1, p.2 ++ q.2)
  | .alt r1 r2, s => Re.mtch r1 s ++ Re.mtch r2 s
  | .starC c, s =>
      let k := (s.takeWhile (CC.matches c)).length
      (List.range (k + 1)).reverse.map fun i => (s.drop i, [])
  | .plusC c, s =>
      let k := (s.takeWhile (CC.matches c)).length
      (List.range k).reverse.map fun j => (s.drop (j + 1), [])
  | .opt r, s => Re.mtch r s ++ [(s, [])]
  | .group n r, s =>
      (Re.mtch r s).map fun p => (p.1, p.2 ++ [(n, ⟨s.take (s.length - p.1.length)⟩)])
  | .rep n c, s =>
      if n ≤ s.length && (s.take n).all (CC.matches c) then [(s.drop n, [])] else []

/-- Python `re` returns the first match in backtracking priority order. -/
def Re.matchHead (r : Re) (s : List Char) : Option (List Char × Caps) :=
  (Re.mtch r s).head?

/-- The scan loop of `re.finditer`, written with explicit fuel so that it
is structurally recursive (and hence kernel-reducible): every recursive
call strictly shrinks the remaining text, so fuel `s.length + 1` (supplied
by `findIterCaps`) can never run out. -/
def findIterCapsAux (r : Re) : Nat → List Char → List Caps
  | 0, _ => []
  | fuel + 1, s =>
      match Re.matchHead r s with
      | none =>
          match s with
          | [] => []
          | _ :: rest => findIterCapsAux r fuel rest
      | some p =>
          if p.1.length < s.length then p.2 :: findIterCapsAux r fuel p.1
          else
            match s with
            | [] => [p.2]
            | _ :: rest => p.2 :: findIterCapsAux r fuel rest

/-- `re.finditer` over `s`: scan left to right, yield each non-overlapping
match's captures; after a match the scan resumes at the match end (one past
it for an empty match, as in Python 3.7+). -/
def findIterCaps (r : Re) (s : List Char) : List Caps :=
  findIterCapsAux r (s.length + 1) s

/-- `re.match(pattern, line)`: does the compiled pattern match at the start
of the line (a prefix match, not necessarily the whole line)? -/
def reMatchB (r : Re) (line : String) : Bool :=
  (Re.matchHead r line.data).isSome

/-! ### Python string primitives used by the source -/

/-- `str.replace` with an empty needle: Python inserts the replacement
around every character (`"ab".replace("", "-") = "-a-b-"`). -/
def replaceEmptyNeedle (rep : List Char) : List Char → List Char
  | [] => rep
  | c :: rest => rep ++ c :: replaceEmptyNeedle rep rest

/-- `str.replace` with a non-empty needle: replace every non-overlapping
occurrence, scanning left to right.  Fuel makes the recursion structural;
every step consumes at least one character, so fuel `s.length + 1`
(supplied by `pyReplace`) can never run out. -/
def replaceListAux (nd rep : List Char) : Nat → List Char → List Char
  | 0, s => s
  | _ + 1, [] => []
  | fuel + 1, c :: rest =>
      if nd ≠ [] ∧ nd.isPrefixOf (c :: rest) then
        rep ++ replaceListAux nd rep fuel ((c :: rest).drop nd.length)
      else
        c :: replaceListAux nd rep fuel rest

/-- Python `s.replace(nd, rep)` (all occurrences). -/
def pyReplace (s nd rep : String) : String :=
  if nd = "" then ⟨replaceEmptyNeedle rep.data s.data⟩
  else ⟨replaceListAux nd.data rep.data (s.data.length + 1) s.data⟩

/-- Python `s.split(sep)` for a non-empty separator, on character lists.
Single separator occurrences delimit fields and empty fields are kept.
(Python raises `ValueError` for an empty separator; that case is never
reached by the repository, and this model then returns the whole input.) -/
def splitListAux (sep : List Char) : Nat → List Char → List (List Char)
  | 0, s => [s]
  | _ + 1, [] => [[]]
  | fuel + 1, c :: rest =>
      if sep ≠ [] ∧ sep.isPrefixOf (c :: rest) then
        [] :: splitListAux sep fuel ((c :: rest).drop sep.length)
      else
        List.modifyHead (fun piece => c :: piece) (splitListAux sep fuel rest)

/-- `splitListAux` with always-sufficient fuel (every recursive step
consumes at least one character). -/
def splitList (sep s : List Char) : List (List Char) :=
  splitListAux sep (s.length + 1) s

/-- Python `s.split(sep)`. -/
def pySplit (sep s : String) : List String :=
  (splitList sep.data s.data).map fun l => ⟨l⟩

/-- The character set of Python's `\s` (ASCII part). -/
def isSpacePy (c : Char) : Bool := CC.matches .space c

/-- Python `s.strip()` (whitespace stripped from both ends). -/
def pyStrip (s : String) : String :=
  ⟨((s.data.dropWhile isSpacePy).reverse.dropWhile isSpacePy).reverse⟩

/-- `re.compile(r"\n+").sub(r"\n", text)`: collapse every run of
consecutive newline characters into a single newline. -/
def collapseNLList : List Char → List Char
  | [] => []
  | [c] => [c]
  | c1 :: c2 :: rest =>
      if c1 = '\n' && c2 = '\n' then collapseNLList (c2 :: rest)
      else c1 :: collapseNLList (c2 :: rest)

def collapseNLStr (s : String) : String := ⟨collapseNLList s.data⟩

/-- `re.compile(r"\s+").sub(" ", text)`: collapse every run of whitespace
characters into a single space. -/
def collapseWsList : List Char → List Char
  | [] => []
  | [c] => if isSpacePy c then [' '] else [c]
  | c1 :: c2 :: rest =>
      if isSpacePy c1 then
        if isSpacePy c2 then collapseWsList (c2 :: rest)
        else ' ' :: collapseWsList (c2 :: rest)
      else c1 :: collapseWsList (c2 :: rest)

def collapseWsStr (s : String) : String := ⟨collapseWsList s.data⟩

/-! ### `BasicLinesFormatter` (src/image2csv/format.py)

The anchor patterns are stored as strings and tested with `re.match`;
the `re` module is an external library here, so the "does this pattern
match at the start of this line" relation is passed in as an oracle
`rm : String → String → Bool` (pattern, line).  Python truthiness guards
(`if self.remove_before_match:` etc.) are modelled explicitly: `None` and
the empty string/dict are falsy. -/

structure BasicLinesFormatter where
  min_chars : Nat := 3
  remove_before_match : Option String := none
  remove_after_match : Option String := none
  remove_multiple_newlines : Bool := true
  replace_occurrences : Option (List (String × String)) := none
  split_char : Option String := some "\n"

/-- `BasicLinesFormatter._get_index_match`: the indices of the lines the
pattern matches (via the `rm` oracle standing for `re.match`), passed to
`comp` (Python `min` or `max`, modelled by `List.min?` / `List.max?`)
when non-empty. -/
def getIndexMatch (rm : String → String → Bool) (pat : String)
    (lines : List String) (comp : List Nat → Option Nat) : Option Nat :=
  let idxMatches := (List.range lines.length).filter fun i => rm pat (lines.getD i "")
  if idxMatches.isEmpty then none else comp idxMatches

/-- The `remove_before_match` block of `format`: when the configured
pattern is truthy and some line matches, drop everything up to and
including the smallest matching index (`lines[ix_begin + 1:]`). -/
def trimBeforeStage (rm : String → String → Bool) (o : Option String)
    (lines : List String) : List String :=
  match o with
  | none => lines
  | some pat =>
      if pat = "" then lines
      else
        match getIndexMatch rm pat lines List.min? with
        | some ix => lines.drop (ix + 1)
        | none => lines

/-- The `remove_after_match` block of `format`: when the configured
pattern is truthy and some line matches, keep only the lines strictly
before the largest matching index (`lines[:ix_end]`). -/
def trimAfterStage (rm : String → String → Bool) (o : Option String)
    (lines : List String) : List String :=
  match o with
  | none => lines
  | some pat =>
      if pat = "" then lines
      else
        match getIndexMatch rm pat lines List.max? with
        | some ix => lines.take ix
        | none => lines

/-- The replacement loop body of `format` applied to one line: fold the
ordered `replace_occurrences` mapping over the line with `str.replace`. -/
def applyReplacements (pairs : List (String × String)) (row : String) : String :=
  pairs.foldl (fun r kv => pyReplace r kv.1 kv.2) row

/-- The `replace_occurrences` block of `format` (skipped when the mapping
is `None` or empty, which are falsy in Python). -/
def applyReplStage (o : Option (List (String × String)))
    (lines : List String) : List String :=
  match o with
  | none => lines
  | some pairs =>
      if pairs.isEmpty then lines else lines.map (applyReplacements pairs)

/-- `BasicLinesFormatter.format`.  Stage order follows the source: newline
collapsing, splitting, remove-before trimming, remove-after trimming,
minimum-length filtering, literal replacements. -/
def BasicLinesFormatter.format (rm : String → String → Bool)
    (f : BasicLinesFormatter) (text : String) : List String :=
  let text1 := if f.remove_multiple_newlines then collapseNLStr text else text
  let lines0 :=
    match f.split_char with
    | none => [text1]
    | some sep => pySplit sep text1
  let lines1 := trimBeforeStage rm f.remove_before_match lines0
  let lines2 := trimAfterStage rm f.remove_after_match lines1
  let lines3 := lines2.filter fun line => f.min_chars ≤ line.length
  applyReplStage f.replace_occurrences lines3

/-! ### Records (Python dicts from `match.groupdict()`)

Python dicts preserve insertion order, so a parsed entry is an ordered
association list from field name to `Option String` (`None` for an
optional group that did not participate in the match). -/

abbrev Record := List (String × Option String)

/-- The value a capture group received, if it participated in the match. -/
def capOf (caps : Caps) (n : Nat) : Option String := caps.lookup n

/-- The ordered field names of a record (the dict's key view). -/
def recordKeys (r : Record) : List String := r.map Prod.fst

/-- `entry[k]` (the stored value; `none` both for a missing key and for a
stored `None`, which the statements below keep apart via `recordKeys`). -/
def recordVal (r : Record) (k : String) : Option String := (r.lookup k).join

/-- `entry[k] = f(entry[k])`: update the value stored at a key in place,
preserving the dict's key order. -/
def updKey (r : Record) (k : String) (f : Option String → Option String) : Record :=
  r.map fun kv => if kv.1 = k then (kv.1, f kv.2) else kv

/-- Right-nested concatenation of a regex sequence. -/
def cats (l : List Re) : Re := l.foldr .cat .eps

/-- A literal string regex fragment. -/
def rlit (s : String) : Re := .lit s.data

/-- `[\d]{2}` -/
def dd2 : Re := .rep 2 .digit

/-! ### `FlashBenefitsParser.parse_text_lines` (src/image2csv/parse/flash.py) -/

/-- The Flash grammar
`(?P<description>.+) (?P<date>[\d]{2}/[\d]{2})\n(?:.+)[$S]\s*(?P<value>[.\d]+,[\d]{2}) (?P<hour>[\d]{2}:[\d]{2})?`
with groups numbered description = 1, date = 2, value = 3, hour = 4. -/
def flashRe : Re := cats [
  .group 1 (.plusC .anyNoNL),
  rlit " ",
  .group 2 (cats [dd2, rlit "/", dd2]),
  rlit "\n",
  .plusC .anyNoNL,
  .cc (.oneOf ['$', 'S']),
  .starC .space,
  .group 3 (cats [.plusC .dotOrDigit, rlit ",", dd2]),
  rlit " ",
  .opt (.group 4 (cats [dd2, rlit ":", dd2]))]

/-- `match.groupdict()` for the Flash grammar: keys in group order. -/
def groupdictFlash (caps : Caps) : Record :=
  [("description", capOf caps 1), ("date", capOf caps 2),
   ("value", capOf caps 3), ("hour", capOf caps 4)]

/-- `" ".join(entry["description"].split(" ")[1:]).strip()` -/
def flashJoinDropFirst (d : String) : String :=
  pyStrip (String.intercalate " " ((pySplit " " d).drop 1))

/-- The normalization loop body of `FlashBenefitsParser.parse_text_lines`.
Groups 1–3 participate in every successful match of the grammar, so the
`getD ""` defaults are never exercised. -/
def flashNormEntry (year : Nat) (e : Record) : Record :=
  let e1 := updKey e "date" fun v => some ((v.getD "") ++ "/" ++ toString year)
  let e2 := updKey e1 "value" fun v =>
    some (pyReplace (pyReplace (v.getD "") "." "") "," ".")
  let e3 := updKey e2 "description" fun v => some (flashJoinDropFirst (v.getD ""))
  updKey e3 "description" fun v => some (collapseWsStr (v.getD ""))

/-- `FlashBenefitsParser.parse_text_lines`: join the lines with newlines,
scan the blob with `finditer`, build one groupdict per match, then
normalize each entry in place.  `year` is `datetime.today().year`. -/
def flashParseTextLines (year : Nat) (input_text_lines : List String) : List Record :=
  let parsed_text :=
    (findIterCaps flashRe (String.intercalate "\n" input_text_lines).data).map groupdictFlash
  parsed_text.map (flashNormEntry year)

/-! ### `XPCardNotificationsParser.parse_text_lines` (src/image2csv/parse/xp.py) -/

/-- The XP grammar
`Cartão XP (?P<date>[\d]{2}/?[\d]{2})\nCompra\sde\sR\$\s(?P<value>.+)\sAPROVADA\sem\s(?P<description>.+\n?.+)\svia\scartão`
with groups numbered date = 1, value = 2, description = 3. -/
def xpRe : Re := cats [
  rlit "Cartão XP ",
  .group 1 (cats [dd2, .opt (rlit "/"), dd2]),
  rlit "\n",
  rlit "Compra", .cc .space, rlit "de", .cc .space, rlit "R$", .cc .space,
  .group 2 (.plusC .anyNoNL),
  .cc .space,
  rlit "APROVADA", .cc .space, rlit "em", .cc .space,
  .group 3 (cats [.plusC .anyNoNL, .opt (rlit "\n"), .plusC .anyNoNL]),
  .cc .space, rlit "via", .cc .space, rlit "cartão"]

/-- `match.groupdict()` for the XP grammar: keys in group order. -/
def groupdictXP (caps : Caps) : Record :=
  [("date", capOf caps 1), ("value", capOf caps 2), ("description", capOf caps 3)]

/-- Python character slicing `s[:2]`. -/
def pySlice2 (s : String) : String := ⟨s.data.take 2⟩

/-- Python character slicing `s[-2:]`. -/
def pySliceLast2 (s : String) : String := ⟨(s.data.reverse.take 2).reverse⟩

/-- The normalization loop body of `XPCardNotificationsParser.parse_text_lines`. -/
def xpNormEntry (year : Nat) (e : Record) : Record :=
  let e1 := updKey e "date" fun v =>
    some (pySlice2 (v.getD "") ++ "/" ++ pySliceLast2 (v.getD "") ++ "/" ++ toString year)
  let e2 := updKey e1 "value" fun v =>
    some (pyReplace (pyReplace (v.getD "") "." "") "," ".")
  updKey e2 "description" fun v => some (pyReplace (v.getD "") "\n" " ")

/-- `XPCardNotificationsParser.parse_text_lines`: scan each input line
separately with `finditer`, extending one result list row by row, then
normalize each entry.  `year` is `datetime.today().year`. -/
def xpParseTextLines (year : Nat) (input_text_lines : List String) : List Record :=
  let parsed_text :=
    (input_text_lines.map fun row => (findIterCaps xpRe row.data).map groupdictXP).flatten
  parsed_text.map (xpNormEntry year)

/-! ### `BaseParser` and `EmptyResults` (src/image2csv/parse/base.py) -/

/-- `BaseParser.parsed_text`: run `parse_text_lines` on the formatted
lines; zero records raises the distinguished `EmptyResults` exception
(modelled as the `Except.error` branch), otherwise the records are
returned unchanged. -/
def parsedTextResult (parse_text_lines : List String → List α)
    (input_text : List String) : Except String (List α) :=
  let parsed_text := parse_text_lines input_text
  if parsed_text.length = 0 then .error "No results after image conversion."
  else .ok parsed_text

/-! ### `OCRExtractor.extract` (src/image2csv/extract.py)

The OCR engine and the filesystem are external collaborators and enter as
oracles: `isFile p` models `Path(p).is_file()`, `ocr p` models
`pytesseract.image_to_string(Image.open(p), ...)`, and `dirImages p`
models the recursive jpg/jpeg/png discovery
`flatten(*[Path(p).rglob(f"*.{ext}") for ext in ["jpg","jpeg","png"]])`
(in that traversal order).  `extract_text_from_images` maps the OCR call
over the discovered files with `ThreadPoolExecutor.map`, which preserves
input order, so it is modelled as `List.map`. -/

/-- `extract`'s argument: a plain path or a list of paths. -/
inductive PathInput : Type
  | one (p : String) : PathInput
  | many (ps : List String) : PathInput

/-- `extract`'s overloaded result: one text for a file path, a list of
texts otherwise. -/
inductive ExtractResult : Type
  | text (s : String) : ExtractResult
  | texts (l : List String) : ExtractResult
deriving DecidableEq, Repr

/-- Python iteration over an `extract` result, as used by
`itertools.chain(*...)`: iterating a `str` yields its characters as
one-character strings; iterating a list yields its elements. -/
def iterOf : ExtractResult → List String
  | .text s => s.data.map fun c => String.singleton c
  | .texts l => l

/-- `extract` on a single path: the whole OCR text for a file, otherwise
one OCR text per discovered image of the directory. -/
def extractOne (isFile : String → Bool) (ocr : String → String)
    (dirImages : String → List String) (p : String) : ExtractResult :=
  if isFile p then .text (ocr p) else .texts ((dirImages p).map ocr)

/-- `OCRExtractor.extract`: a list argument is handled as
`list(flatten(*[self.extract(path) for path in path_or_paths]))`, i.e.
each per-path result is iterated (see `iterOf`) and the iterations are
concatenated. -/
def extract (isFile : String → Bool) (ocr : String → String)
    (dirImages : String → List String) : PathInput → ExtractResult
  | .one p => extractOne isFile ocr dirImages p
  | .many ps =>
      .texts ((ps.map fun p => iterOf (extractOne isFile ocr dirImages p)).flatten)

/-- `BaseParser.input_text`:
`list(flatten(*map(self.formatter.format, self.images)))` — the formatter
is mapped over the iteration of the cached `images` value and the
resulting line lists are concatenated. -/
def inputTextOf (formatLines : String → List String) (images : ExtractResult) : List String :=
  ((iterOf images).map formatLines).flatten

/-! ### The `@lru_cache(maxsize=1)` property cache (src/image2csv/parse/base.py)

Each of the three properties `images`, `input_text` and `parsed_text`
wraps its underlying computation in `functools.lru_cache(maxsize=1)`.
The cache is keyed by the bound `self` argument and holds at most ONE
entry, so it is modelled as an optional single (key, value) slot shared
by all parser instances; `f` is the (deterministic) underlying
computation, keys are parser instances. -/

structure LruCache1 (κ α : Type) where
  entry : Option (κ × α)

/-- One cached call: a hit returns the stored value, a miss runs `f` and
replaces the slot (evicting whatever instance was cached).  The `Bool`
records whether the underlying computation was re-run. -/
def cacheAccess [DecidableEq κ] (f : κ → α) (k : κ) (c : LruCache1 κ α) :
    α × LruCache1 κ α × Bool :=
  match c.entry with
  | some kv => if kv.1 = k then (kv.2, c, false) else (f k, ⟨some (k, f k)⟩, true)
  | none => (f k, ⟨some (k, f k)⟩, true)

/-- Run a sequence of property accesses (identified by the accessing
instance) through the cache, recording for each access the key, the
returned value, and whether the computation re-ran. -/
def runAccesses [DecidableEq κ] (f : κ → α) :
    LruCache1 κ α → List κ → List (κ × α × Bool)
  | _, [] => []
  | c, k :: ks =>
      let r := cacheAccess f k c
      (k, r.1, r.2.2) :: runAccesses f r.2.1 ks

/-- How many accesses in the sequence `ks` (starting from a cold cache)
re-ran the computation for instance `k`. -/
def compCount [DecidableEq κ] (f : κ → α) (ks : List κ) (k : κ) : Nat :=
  ((runAccesses f ⟨none⟩ ks).filter fun t => decide (t.1 = k) && t.2.2).length

/-- The number of maximal runs of consecutive occurrences of `k` in the
access sequence, given the previously accessed key. -/
def runsCountAux [DecidableEq κ] (k : κ) : Option κ → List κ → Nat
  | _, [] => 0
  | prev, x :: rest =>
      (if x = k ∧ prev ≠ some k then 1 else 0) + runsCountAux k (some x) rest

def runsCount [DecidableEq κ] (k : κ) (ks : List κ) : Nat := runsCountAux k none ks

/-! ### Auxiliary definitions for the claim statements -/

/-- The per-line effect of the replacement stage (the identity when the
`replace_occurrences` mapping is falsy); `applyReplStage` is extensionally
the map of this function. -/
def applyReplOne (o : Option (List (String × String))) (row : String) : String :=
  match o with
  | none => row
  | some pairs => if pairs.isEmpty then row else applyReplacements pairs row

/-- The field names of the `FlashEntry` TypedDict, in declaration order
(src/image2csv/parse/flash.py). -/
def flashEntryFields : List String := ["date", "description", "value"]

/-- Python `s.split()` (no argument): the whitespace-delimited tokens of a
string, with no empty tokens. -/
def wsTokens (s : String) : List String :=
  pySplit " " (pyStrip (collapseWsStr s))

/-- Modelled from the spec's words (the description clause of the Vendor A
normalization): the captured description with its first
WHITESPACE-delimited token dropped and the remaining tokens separated by
single spaces. -/
def claimedWsDescNorm (d : String) : String :=
  String.intercalate " " ((wsTokens d).drop 1)

/-- Modelled from the spec's words (the shared-algorithm paragraph): join
the lines with newline separators into one blob and scan it with the XP
grammar, one record per match, in match order. -/
def joinedScanXP (year : Nat) (lines : List String) : List Record :=
  ((findIterCaps xpRe (String.intercalate "\n" lines).data).map groupdictXP).map (xpNormEntry year)

/-- A concrete `re.match` oracle for witnesses: the pattern taken as a
literal prefix of the line. -/
def rmPrefixW : String → String → Bool := fun pat line => pat.data.isPrefixOf line.data

/-- A concrete `re.match` oracle matching no line at all. -/
def rmNever : String → String → Bool := fun _ _ => false

/-- Concrete filesystem oracle for the extractor theorems: exactly
`"a.jpg"` is a file. -/
def isFileW : String → Bool := fun p => p = "a.jpg"

/-- Concrete OCR oracle: the file `"a.jpg"` reads `"hi"`, any other image
reads `"t-"` followed by its path. -/
def ocrW : String → String := fun p => if p = "a.jpg" then "hi" else "t-" ++ p

/-- Concrete directory-discovery oracle: the directory `"d"` holds the
images `"x.png"` and `"y.png"` in traversal order. -/
def dirImagesW : String → List String := fun p => if p = "d" then ["x.png", "y.png"] else []

/-- Filesystem oracle under which every path is a file. -/
def isFileAllW : String → Bool := fun _ => true

/-- OCR oracle reading every image as the same two-line text. -/
def ocrTextW : String → String := fun _ => "some\nOCR text!"

/-- Discovery oracle under which every directory is empty. -/
def dirNoneW : String → List String := fun _ => []

/-! ## Helper lemmas -/

/-- The replacement stage is the map of its per-line effect. -/
theorem applyReplStage_eq_map (o : Option (List (String × String))) (lines : List String) :
    applyReplStage o lines = lines.map (applyReplOne o) := by
  match o with
  | none => exact (List.map_id'' (fun _ => rfl) lines).symm
  | some pairs =>
      by_cases h : pairs.isEmpty
      · simpa [applyReplStage, h] using
          (List.map_id'' (f := applyReplOne (some pairs)) (fun x => by simp [applyReplOne, h]) lines).symm
      · simp [applyReplStage, h, applyReplOne]

/-- Lines surviving the remove-before trimming come from the input list. -/
theorem mem_of_mem_trimBeforeStage (rm : String → String → Bool) (o : Option String)
    (lines : List String) (x : String) (hx : x ∈ trimBeforeStage rm o lines) : x ∈ lines := by
  unfold trimBeforeStage at hx
  match o with
  | none => exact hx
  | some pat =>
      simp only at hx
      split at hx
      · exact hx
      · split at hx
        · exact List.mem_of_mem_drop hx
        · exact hx

/-- Lines surviving the remove-after trimming come from the input list. -/
theorem mem_of_mem_trimAfterStage (rm : String → String → Bool) (o : Option String)
    (lines : List String) (x : String) (hx : x ∈ trimAfterStage rm o lines) : x ∈ lines := by
  unfold trimAfterStage at hx
  match o with
  | none => exact hx
  | some pat =>
      simp only at hx
      split at hx
      · exact hx
      · split at hx
        · exact List.mem_of_mem_take hx
        · exact hx

/-! ## The claims -/

/-- C10: configuring `remove_before_match` or `remove_after_match` as the
empty string disables that trimming rule entirely (Python truthiness:
`if self.remove_before_match:` is false for `""`), behaving exactly as if
the anchor were not configured, even though the compiled empty pattern
(`Re.eps`) regex-matches every line; likewise an empty
`replace_occurrences` mapping disables the replacement step. -/
theorem empty_anchor_and_empty_replacements_disable (rm : String → String → Bool)
    (f : BasicLinesFormatter) (text : String) :
    BasicLinesFormatter.format rm { f with remove_before_match := some "" } text
      = BasicLinesFormatter.format rm { f with remove_before_match := none } text
    ∧ BasicLinesFormatter.format rm { f with remove_after_match := some "" } text
      = BasicLinesFormatter.format rm { f with remove_after_match := none } text
    ∧ BasicLinesFormatter.format rm { f with replace_occurrences := some [] } text
      = BasicLinesFormatter.format rm { f with replace_occurrences := none } text
    ∧ ∀ line : String, reMatchB Re.eps line = true :=
  ⟨rfl, rfl, rfl, fun _ => rfl⟩

/-- C4: accessing `parsed_text` raises the distinguished `EmptyResults`
error (the `Except.error` branch) exactly when `parse_text_lines` returns
zero records; for the empty formatted-line sequence both vendor parsers
yield zero records, so the caller observes `EmptyResults`; a non-empty
record list is returned unchanged. -/
theorem parsed_text_empty_results_iff_no_records (parse : List String → List Record)
    (input_text : List String) (year : Nat) :
    (parsedTextResult parse input_text = .error "No results after image conversion."
      ↔ parse input_text = [])
    ∧ (parse input_text ≠ [] →
        parsedTextResult parse input_text = .ok (parse input_text))
    ∧ flashParseTextLines year [] = []
    ∧ xpParseTextLines year [] = []
    ∧ parsedTextResult (flashParseTextLines year) [] = .error "No results after image conversion."
    ∧ parsedTextResult (xpParseTextLines year) [] = .error "No results after image conversion." := by
  refine ⟨?_, ?_, rfl, rfl, rfl, rfl⟩
  · by_cases h : parse input_text = [] <;>
      simp [parsedTextResult, h, List.length_eq_zero]
  · intro h
    simp [parsedTextResult, List.length_eq_zero, h]

theorem parsed_text_empty_results_iff_no_records_witness :
    parsedTextResult (flashParseTextLines 2025) ["Loja X 01/02", "Compra R$ 1,00 "]
      = .ok (flashParseTextLines 2025 ["Loja X 01/02", "Compra R$ 1,00 "]) :=
  (parsed_text_empty_results_iff_no_records (flashParseTextLines 2025)
    ["Loja X 01/02", "Compra R$ 1,00 "] 2025).2.1 (by decide)

/-- C6 (code bug): in the list-argument branch of `OCRExtractor.extract`,
`list(flatten(*[self.extract(path) for path in path_or_paths]))` iterates
each per-path result; a path that is a single image file yields a `str`,
which Python iterates character by character, so the file contributes one
ONE-CHARACTER element per character of its text instead of a single
element with the whole text (a directory path, whose result is a list, is
flattened correctly).  Here `"a.jpg"` is a file whose OCR text is `"hi"`
and `"d"` is a directory with two images. -/
theorem extract_splats_file_text_into_characters :
    extract isFileW ocrW dirImagesW (.many ["a.jpg", "d"])
      = .texts ["h", "i", "t-x.png", "t-y.png"]
    ∧ extract isFileW ocrW dirImagesW (.one "a.jpg") = .text "hi"
    ∧ ExtractResult.texts ["h", "i", "t-x.png", "t-y.png"]
        ≠ .texts ["hi", "t-x.png", "t-y.png"] := by
  refine ⟨by decide, by decide, by decide⟩

/-- C3 counterexample: the minimum-length filter runs BEFORE the
`replace_occurrences` step, so a replacement can shrink a surviving line
below `min_chars`: with the default `min_chars = 3` and the mapping
`{"abc": ""}`, the input `"abc"` formats to a single empty line. -/
theorem format_line_below_min_chars_after_replacement :
    BasicLinesFormatter.format rmNever { replace_occurrences := some [("abc", "")] } "abc" = [""]
    ∧ ({ replace_occurrences := some [("abc", "")] } : BasicLinesFormatter).min_chars = 3
    ∧ ¬ (3 ≤ ("" : String).length) := by
  refine ⟨by decide, rfl, by decide⟩

/-- C3 (amended): every line of `BasicLinesFormatter.format`'s output is
the image under the configured replacements of a line whose length meets
`min_chars`; in particular, when no `replace_occurrences` mapping is
configured, every output line has length at least `min_chars`.  (The
as-stated claim fails because replacements run after the length filter and
may shorten a line: see the counterexample.) -/
theorem format_lines_meet_min_chars_before_replacements (rm : String → String → Bool)
    (f : BasicLinesFormatter) (text : String) :
    (∀ line ∈ BasicLinesFormatter.format rm f text, ∃ pre : String,
        f.min_chars ≤ pre.length ∧ line = applyReplOne f.replace_occurrences pre)
    ∧ (f.replace_occurrences = none →
        ∀ line ∈ BasicLinesFormatter.format rm f text, f.min_chars ≤ line.length) := by
  constructor
  · intro line hline
    simp only [BasicLinesFormatter.format, applyReplStage_eq_map, List.mem_map] at hline
    obtain ⟨pre, hpre, rfl⟩ := hline
    have hlen := (List.mem_filter.1 hpre).2
    exact ⟨pre, by simpa using hlen, rfl⟩
  · intro hrepl line hline
    simp only [BasicLinesFormatter.format, applyReplStage_eq_map, List.mem_map] at hline
    obtain ⟨pre, hpre, rfl⟩ := hline
    have hlen := (List.mem_filter.1 hpre).2
    simpa [applyReplOne, hrepl] using hlen

theorem format_lines_meet_min_chars_before_replacements_witness :
    ∃ pre : String, ({} : BasicLinesFormatter).min_chars ≤ pre.length
      ∧ "abcd" = applyReplOne ({} : BasicLinesFormatter).replace_occurrences pre :=
  (format_lines_meet_min_chars_before_replacements rmNever {} "abcd").1 "abcd" (by decide)

/-- C7 counterexample: the three cached properties use
`functools.lru_cache(maxsize=1)` keyed by `self`, so the cache holds one
parser instance per property.  Interleaving accesses from two live
instances (here keys `0, 1, 0`) evicts the first instance's entry and its
computation re-runs: instance `0`'s computation runs twice, violating
"computed at most once during that instance's lifetime". -/
theorem lru_cache_recomputes_when_interleaved :
    compCount (fun n : Nat => 10 * n) [0, 1, 0] 0 = 2
    ∧ ¬ compCount (fun n : Nat => 10 * n) [0, 1, 0] 0 ≤ 1 := by
  refine ⟨by decide, by decide⟩

/-- Invariant of the `maxsize=1` cache: as long as the cache slot (if
filled) holds the underlying function's value for its key, every access
returns the underlying function's value for the accessed key, and the
number of recomputations for `k` equals the number of maximal runs of `k`
in the access sequence, given the currently cached key. -/
theorem runAccesses_cache_spec [DecidableEq κ] (f : κ → α) (k : κ) (ks : List κ) :
    ∀ (c : LruCache1 κ α), (∀ k' v, c.entry = some (k', v) → v = f k') →
      ((runAccesses f c ks).map fun t => t.2.1) = ks.map f
      ∧ ((runAccesses f c ks).filter fun t => decide (t.1 = k) && t.2.2).length
          = runsCountAux k (c.entry.map Prod.fst) ks := by
  induction ks with
  | nil => intro c _; simp [runAccesses, runsCountAux]
  | cons k0 ks ih =>
    intro c hc
    have hgood : ∀ k' v,
        (LruCache1.entry ⟨some (k0, f k0)⟩ : Option (κ × α)) = some (k', v) → v = f k' := by
      intro k' v h
      injection h with h
      injection h with h1 h2
      rw [← h1, h2]
    match hent : c.entry with
    | none =>
        have hca : cacheAccess f k0 c = (f k0, ⟨some (k0, f k0)⟩, true) := by
          unfold cacheAccess; rw [hent]
        have hrun : runAccesses f c (k0 :: ks)
            = (k0, f k0, true) :: runAccesses f ⟨some (k0, f k0)⟩ ks := by
          simp only [runAccesses, hca]
        have hrec := ih ⟨some (k0, f k0)⟩ hgood
        rw [hrun]
        refine ⟨by simp [hrec.1], ?_⟩
        rw [List.filter_cons]
        by_cases hk : k0 = k
        · subst hk
          simp [runsCountAux, hrec.2]
          omega
        · simp [runsCountAux, hk, hrec.2]
    | some kv =>
        have hv : kv.2 = f kv.1 := hc kv.1 kv.2 (by rw [hent])
        by_cases hk0 : kv.1 = k0
        · have hca : cacheAccess f k0 c = (kv.2, c, false) := by
            unfold cacheAccess; rw [hent]; simp [hk0]
          have hrun : runAccesses f c (k0 :: ks)
              = (k0, kv.2, false) :: runAccesses f c ks := by
            simp only [runAccesses, hca]
          have hrec := ih c hc
          rw [hrun]
          refine ⟨by simp [hrec.1, hv, hk0], ?_⟩
          rw [hent] at hrec
          rw [List.filter_cons]
          by_cases hk : k0 = k
          · subst hk
            simp [runsCountAux, hrec.2, hk0]
          · simp [runsCountAux, hk, hrec.2, hk0]
        · have hca : cacheAccess f k0 c = (f k0, ⟨some (k0, f k0)⟩, true) := by
            unfold cacheAccess; rw [hent]; simp [hk0]
          have hrun : runAccesses f c (k0 :: ks)
              = (k0, f k0, true) :: runAccesses f ⟨some (k0, f k0)⟩ ks := by
            simp only [runAccesses, hca]
          have hrec := ih ⟨some (k0, f k0)⟩ hgood
          rw [hrun]
          refine ⟨by simp [hrec.1], ?_⟩
          rw [List.filter_cons]
          by_cases hk : k0 = k
          · subst hk
            simp [runsCountAux, hrec.2, hk0]
            omega
          · simp [runsCountAux, hk, hrec.2]

/-- C7 (amended): repeated accesses return the deterministic underlying
value, and a property's computation for an instance re-runs exactly once
per maximal run of consecutive accesses by that instance — so repeated
access with no other live instance's access in between never recomputes,
but an access interleaved by a different instance's access to the same
property does (the `lru_cache(maxsize=1)` slot is shared across
instances). -/
theorem lru_cache_value_and_recompute_runs [DecidableEq κ] (f : κ → α)
    (ks : List κ) (k : κ) :
    ((runAccesses f ⟨none⟩ ks).map fun t => t.2.1) = ks.map f
    ∧ compCount f ks k = runsCount k ks := by
  have h := runAccesses_cache_spec f k ks ⟨none⟩ (by intro k' v hv; simp at hv)
  exact ⟨h.1, h.2⟩

/-- C9: every record of the Flash parser has exactly the four keys
`description`, `date`, `value`, `hour` in that (group) order — all records
of one parse share this key set — and the value stored at `"hour"` is the
optional fourth group's capture (`none` when the group did not
participate), even though the declared `FlashEntry` schema lists only
`date`, `description` and `value`. -/
theorem flash_records_have_hour_key_beyond_schema (year : Nat) (lines : List String) :
    (∀ rec ∈ flashParseTextLines year lines,
        recordKeys rec = ["description", "date", "value", "hour"])
    ∧ (∀ rec1 ∈ flashParseTextLines year lines, ∀ rec2 ∈ flashParseTextLines year lines,
        recordKeys rec1 = recordKeys rec2)
    ∧ (∀ rec ∈ flashParseTextLines year lines,
        ∃ caps ∈ findIterCaps flashRe (String.intercalate "\n" lines).data,
          rec = flashNormEntry year (groupdictFlash caps)
          ∧ recordVal rec "hour" = capOf caps 4)
    ∧ flashEntryFields = ["date", "description", "value"]
    ∧ "hour" ∉ flashEntryFields := by
  have hkeys : ∀ rec ∈ flashParseTextLines year lines,
      recordKeys rec = ["description", "date", "value", "hour"] := by
    intro rec hrec
    simp only [flashParseTextLines, List.map_map, List.mem_map] at hrec
    obtain ⟨caps, _, rfl⟩ := hrec
    rfl
  refine ⟨hkeys, ?_, ?_, rfl, by decide⟩
  · intro rec1 h1 rec2 h2
    rw [hkeys rec1 h1, hkeys rec2 h2]
  · intro rec hrec
    simp only [flashParseTextLines, List.map_map, List.mem_map] at hrec
    obtain ⟨caps, hcaps, rfl⟩ := hrec
    exact ⟨caps, hcaps, rfl, rfl⟩

set_option maxRecDepth 8192 in
theorem flash_records_have_hour_key_beyond_schema_witness :
    recordKeys [("description", some "Mercado"), ("date", some "15/03/2025"),
        ("value", some "45.90"), ("hour", (none : Option String))]
      = ["description", "date", "value", "hour"] :=
  (flash_records_have_hour_key_beyond_schema 2025
      ["Cartão Mercado 15/03", "Compra de R$ 45,90 às 14:30"]).1
    [("description", some "Mercado"), ("date", some "15/03/2025"),
     ("value", some "45.90"), ("hour", none)] (by decide)

/-- C5: in `BasicLinesFormatter.format`, a configured (non-empty)
remove-before pattern with at least one matching line discards all lines
up to and including the smallest matching index; a configured remove-after
pattern with at least one matching line discards all lines at and after
the largest matching index; a configured pattern matching no line leaves
the line list unchanged.  Line/pattern matching (`re.match`, anchored at
line start) enters through the oracle `rm`. -/
theorem format_anchor_trimming (rm : String → String → Bool) (pat : String)
    (lines : List String) (hpat : pat ≠ "") :
    (∀ i, i < lines.length → rm pat (lines.getD i "") = true →
        (∀ j, j < i → rm pat (lines.getD j "") = false) →
        trimBeforeStage rm (some pat) lines = lines.drop (i + 1))
    ∧ (∀ i, i < lines.length → rm pat (lines.getD i "") = true →
        (∀ j, j < lines.length → i < j → rm pat (lines.getD j "") = false) →
        trimAfterStage rm (some pat) lines = lines.take i)
    ∧ ((∀ i, i < lines.length → rm pat (lines.getD i "") = false) →
        trimBeforeStage rm (some pat) lines = lines
        ∧ trimAfterStage rm (some pat) lines = lines) := by
  refine ⟨?_, ?_, ?_⟩
  · intro i hi hmi hmin
    have hmem : i ∈ (List.range lines.length).filter fun j => rm pat (lines.getD j "") := by
      rw [List.mem_filter, List.mem_range]
      exact ⟨hi, hmi⟩
    have hms : ((List.range lines.length).filter fun j => rm pat (lines.getD j "")).min?
        = some i := by
      rw [List.min?_eq_some_iff']
      refine ⟨hmem, ?_⟩
      intro b hb
      rw [List.mem_filter, List.mem_range] at hb
      by_contra hlt
      push_neg at hlt
      rw [hmin b hlt] at hb
      exact absurd hb.2 (by simp)
    have hne : ¬ ((List.range lines.length).filter fun j => rm pat (lines.getD j "")).isEmpty := by
      rw [List.isEmpty_iff]
      intro hnil
      rw [hnil] at hmem
      exact absurd hmem (List.not_mem_nil i)
    have hgim : getIndexMatch rm pat lines List.min? = some i := by
      simp only [getIndexMatch]
      rw [if_neg hne]
      exact hms
    simp only [trimBeforeStage]
    rw [if_neg hpat, hgim]
  · intro i hi hmi hmax
    have hmem : i ∈ (List.range lines.length).filter fun j => rm pat (lines.getD j "") := by
      rw [List.mem_filter, List.mem_range]
      exact ⟨hi, hmi⟩
    have hms : ((List.range lines.length).filter fun j => rm pat (lines.getD j "")).max?
        = some i := by
      rw [List.max?_eq_some_iff']
      refine ⟨hmem, ?_⟩
      intro b hb
      rw [List.mem_filter, List.mem_range] at hb
      by_contra hlt
      push_neg at hlt
      rw [hmax b hb.1 hlt] at hb
      exact absurd hb.2 (by simp)
    have hne : ¬ ((List.range lines.length).filter fun j => rm pat (lines.getD j "")).isEmpty := by
      rw [List.isEmpty_iff]
      intro hnil
      rw [hnil] at hmem
      exact absurd hmem (List.not_mem_nil i)
    have hgim : getIndexMatch rm pat lines List.max? = some i := by
      simp only [getIndexMatch]
      rw [if_neg hne]
      exact hms
    simp only [trimAfterStage]
    rw [if_neg hpat, hgim]
  · intro hnone
    have hms : ((List.range lines.length).filter fun j => rm pat (lines.getD j "")) = [] := by
      rw [List.filter_eq_nil_iff]
      intro a ha
      rw [List.mem_range] at ha
      simpa [List.getD] using hnone a ha
    have hgimB : getIndexMatch rm pat lines List.min? = none := by
      simp only [getIndexMatch]
      rw [hms]
      rfl
    have hgimA : getIndexMatch rm pat lines List.max? = none := by
      simp only [getIndexMatch]
      rw [hms]
      rfl
    constructor
    · simp only [trimBeforeStage]
      rw [if_neg hpat, hgimB]
    · simp only [trimAfterStage]
      rw [if_neg hpat, hgimA]

theorem format_anchor_trimming_witness :
    trimBeforeStage rmPrefixW (some "X") ["aa", "Xb", "cc", "Xd", "ee"] = ["cc", "Xd", "ee"]
    ∧ trimAfterStage rmPrefixW (some "X") ["aa", "Xb", "cc", "Xd", "ee"] = ["aa", "Xb", "cc"]
    ∧ trimBeforeStage rmPrefixW (some "Z") ["aa", "Xb"] = ["aa", "Xb"] :=
  ⟨(format_anchor_trimming rmPrefixW "X" ["aa", "Xb", "cc", "Xd", "ee"] (by decide)).1
      1 (by decide) (by decide) (by decide),
   (format_anchor_trimming rmPrefixW "X" ["aa", "Xb", "cc", "Xd", "ee"] (by decide)).2.1
      3 (by decide) (by decide) (by decide),
   ((format_anchor_trimming rmPrefixW "Z" ["aa", "Xb"] (by decide)).2.2 (by decide)).1⟩

set_option maxRecDepth 16384 in
/-- C1 counterexample: the XP parser does NOT join its input lines into
one newline-separated blob — it scans each line separately.  On this
two-line input the joined blob contains one match of the XP grammar (its
`\n` falls exactly on the line boundary), but scanning each line alone
finds none, so the claimed join-then-scan behaviour (`joinedScanXP`,
modelled from the spec's words) disagrees with the code. -/
theorem xp_parser_scans_rows_not_joined_blob :
    xpParseTextLines 2025
        ["Cartão XP 15/03", "Compra de R$ 45,90 APROVADA em Loja via cartão"] = []
    ∧ joinedScanXP 2025
        ["Cartão XP 15/03", "Compra de R$ 45,90 APROVADA em Loja via cartão"]
      = [[("date", some "15/03/2025"), ("value", some "45.90"), ("description", some "Loja")]]
    ∧ ([] : List Record)
      ≠ [[("date", some "15/03/2025"), ("value", some "45.90"), ("description", some "Loja")]] := by
  refine ⟨by decide, by decide, by decide⟩

/-- C1 (amended): the Flash parser joins the input lines with newline
separators into one blob and runs the left-to-right non-overlapping
`finditer` scan over it, one record per match, in match order; the XP
parser instead runs that same scan over each input line separately and
concatenates the per-line record lists in input order. -/
theorem parse_text_lines_scan_structure (year : Nat) (lines : List String) :
    flashParseTextLines year lines =
      ((findIterCaps flashRe (String.intercalate "\n" lines).data).map groupdictFlash).map
        (flashNormEntry year)
    ∧ xpParseTextLines year lines =
      (lines.map fun row =>
        ((findIterCaps xpRe row.data).map groupdictXP).map (xpNormEntry year)).flatten := by
  refine ⟨rfl, ?_⟩
  simp [xpParseTextLines, List.map_flatten, List.map_map, Function.comp_def]

set_option maxRecDepth 16384 in
/-- C2 counterexample: the code drops the first SPACE-delimited token of
the captured description (`split(" ")`), not the first
whitespace-delimited token.  Here the captured description is `"A\tB"`
(one space-delimited token, two whitespace-delimited tokens): the code
empties it, while the claimed whitespace-based normalization
(`claimedWsDescNorm`, modelled from the spec's words) keeps `"B"`. -/
theorem flash_description_drops_space_token_not_ws_token :
    (findIterCaps flashRe (String.intercalate "\n" ["A\tB 12/03", "R$ 1,00 "]).data).map
        (fun caps => capOf caps 1) = [some "A\tB"]
    ∧ (flashParseTextLines 2025 ["A\tB 12/03", "R$ 1,00 "]).map
        (fun rec => recordVal rec "description") = [some ""]
    ∧ claimedWsDescNorm "A\tB" = "B"
    ∧ some ("" : String) ≠ some ("B" : String) := by
  refine ⟨by decide, by decide, by decide, by decide⟩

/-- C2 (amended): for every Flash record, the date field is the captured
`dd/mm` capture, a slash, and the current year; the value field is the
captured value with every dot removed and its comma replaced by a dot; the
description field is the captured description with its first
SPACE-delimited token dropped (then stripped), with every remaining
internal whitespace run collapsed to a single space.  The two-line
scenario input parses to exactly one record with `date = "15/03/<year>"`,
`value = "45.90"` and `description = "Mercado"` (leading artifact token
`"Cartão"` dropped). -/
theorem flash_record_field_normalization (year : Nat) (lines : List String) :
    (∀ rec ∈ flashParseTextLines year lines,
      ∃ caps ∈ findIterCaps flashRe (String.intercalate "\n" lines).data,
        recordVal rec "date" = some ((capOf caps 2).getD "" ++ "/" ++ toString year)
        ∧ recordVal rec "value"
            = some (pyReplace (pyReplace ((capOf caps 3).getD "") "." "") "," ".")
        ∧ recordVal rec "description"
            = some (collapseWsStr (flashJoinDropFirst ((capOf caps 1).getD ""))))
    ∧ flashParseTextLines year ["Cartão Mercado 15/03", "Compra de R$ 45,90 às 14:30"] =
        [[("description", some "Mercado"), ("date", some ("15/03/" ++ toString year)),
          ("value", some "45.90"), ("hour", none)]] := by
  constructor
  · intro rec hrec
    simp only [flashParseTextLines, List.map_map, List.mem_map] at hrec
    obtain ⟨caps, hcaps, rfl⟩ := hrec
    exact ⟨caps, hcaps, rfl, rfl, rfl⟩
  · have hcaps : findIterCaps flashRe
        (String.intercalate "\n" ["Cartão Mercado 15/03", "Compra de R$ 45,90 às 14:30"]).data
        = [[(1, "Cartão Mercado"), (2, "15/03"), (3, "45,90")]] := by decide
    unfold flashParseTextLines
    rw [hcaps]
    rfl

set_option maxRecDepth 16384 in
theorem flash_record_field_normalization_witness :
    ∃ caps ∈ findIterCaps flashRe
        (String.intercalate "\n" ["Cartão Mercado 15/03", "Compra de R$ 45,90 às 14:30"]).data,
      recordVal [("description", some "Mercado"), ("date", some "15/03/2025"),
          ("value", some "45.90"), ("hour", (none : Option String))] "date"
        = some ((capOf caps 2).getD "" ++ "/" ++ toString 2025)
      ∧ recordVal [("description", some "Mercado"), ("date", some "15/03/2025"),
          ("value", some "45.90"), ("hour", (none : Option String))] "value"
        = some (pyReplace (pyReplace ((capOf caps 3).getD "") "." "") "," ".")
      ∧ recordVal [("description", some "Mercado"), ("date", some "15/03/2025"),
          ("value", some "45.90"), ("hour", (none : Option String))] "description"
        = some (collapseWsStr (flashJoinDropFirst ((capOf caps 1).getD ""))) :=
  (flash_record_field_normalization 2025
      ["Cartão Mercado 15/03", "Compra de R$ 45,90 às 14:30"]).1
    [("description", some "Mercado"), ("date", some "15/03/2025"),
     ("value", some "45.90"), ("hour", none)] (by decide)

/-- Every piece produced by `splitListAux` is at most as long as the split
input. -/
theorem splitListAux_pieces_length (sep : List Char) :
    ∀ (fuel : Nat) (s : List Char), ∀ piece ∈ splitListAux sep fuel s,
      piece.length ≤ s.length := by
  intro fuel
  induction fuel with
  | zero =>
      intro s piece hp
      simp only [splitListAux, List.mem_singleton] at hp
      simp [hp]
  | succ fuel ih =>
      intro s piece hp
      match s with
      | [] =>
          simp only [splitListAux, List.mem_singleton] at hp
          simp [hp]
      | c :: rest =>
          rw [splitListAux] at hp
          by_cases h : sep ≠ [] ∧ sep.isPrefixOf (c :: rest)
          · rw [if_pos h] at hp
            rcases List.mem_cons.1 hp with h1 | h1
            · simp [h1]
            · have hle := ih ((c :: rest).drop sep.length) piece h1
              have : ((c :: rest).drop sep.length).length ≤ (c :: rest).length := by
                simp [List.length_drop]
              omega
          · rw [if_neg h] at hp
            cases hsplit : splitListAux sep fuel rest with
            | nil => rw [hsplit] at hp; simp at hp
            | cons p ps =>
                rw [hsplit, List.modifyHead] at hp
                rcases List.mem_cons.1 hp with h1 | h1
                · have hple := ih rest p (by rw [hsplit]; exact List.mem_cons_self p ps)
                  rw [h1]
                  simp only [List.length_cons]
                  omega
                · have := ih rest piece (by rw [hsplit]; exact List.mem_cons_of_mem p h1)
                  simp only [List.length_cons]
                  omega

/-- Lines produced by splitting a text of at most one character are at
most one character long. -/
theorem pySplit_short_lines (sep t : String) (ht : t.data.length ≤ 1) :
    ∀ line ∈ pySplit sep t, line.length ≤ 1 := by
  intro line hline
  simp only [pySplit, List.mem_map] at hline
  obtain ⟨piece, hpiece, rfl⟩ := hline
  have := splitListAux_pieces_length sep.data (t.data.length + 1) t.data piece hpiece
  simp only [String.length]
  omega

/-- The replacement stage of an empty line list is empty. -/
theorem applyReplStage_nil (o : Option (List (String × String))) :
    applyReplStage o [] = [] := by
  match o with
  | none => rfl
  | some pairs => by_cases h : pairs.isEmpty <;> simp [applyReplStage, h]

set_option maxRecDepth 8192 in
/-- Formatting a one-character string with `min_chars ≥ 2` filters every
line away: the split pieces of a one-character text are at most one
character long, trimming only removes lines, and the minimum-length filter
then discards them all. -/
theorem format_singleton_nil (rm : String → String → Bool) (f : BasicLinesFormatter)
    (h2 : 2 ≤ f.min_chars) (c : Char) :
    BasicLinesFormatter.format rm f (String.singleton c) = [] := by
  unfold BasicLinesFormatter.format
  show applyReplStage f.replace_occurrences
      ((trimAfterStage rm f.remove_after_match
        (trimBeforeStage rm f.remove_before_match
          (match f.split_char with
            | none => [if f.remove_multiple_newlines then collapseNLStr (String.singleton c)
                else String.singleton c]
            | some sep => pySplit sep (if f.remove_multiple_newlines
                then collapseNLStr (String.singleton c) else String.singleton c)))).filter
        fun line => f.min_chars ≤ line.length) = []
  have htext1 : (if f.remove_multiple_newlines then collapseNLStr (String.singleton c)
      else String.singleton c).data.length ≤ 1 := by
    cases f.remove_multiple_newlines
    · exact Nat.le_refl 1
    · exact Nat.le_refl 1
  set text1 := if f.remove_multiple_newlines then collapseNLStr (String.singleton c)
      else String.singleton c with htext1def
  have hlines0 : ∀ line ∈ (match f.split_char with
      | none => [text1]
      | some sep => pySplit sep text1), line.length ≤ 1 := by
    match f.split_char with
    | none =>
        intro line hline
        rw [List.mem_singleton] at hline
        rw [hline]
        exact htext1
    | some sep => exact pySplit_short_lines sep text1 htext1
  have hfilter : (trimAfterStage rm f.remove_after_match
      (trimBeforeStage rm f.remove_before_match (match f.split_char with
        | none => [text1]
        | some sep => pySplit sep text1))).filter
      (fun line => decide (f.min_chars ≤ line.length)) = [] := by
    rw [List.filter_eq_nil_iff]
    intro line hline
    have hmem := mem_of_mem_trimBeforeStage rm f.remove_before_match _ line
      (mem_of_mem_trimAfterStage rm f.remove_after_match _ line hline)
    have := hlines0 line hmem
    simp only [decide_eq_true_eq]
    omega
  rw [hfilter]
  exact applyReplStage_nil f.replace_occurrences

/-- C8: when `images_path` is a single image-file path, `extract` returns
the extracted text itself (a `str`, not a list); `input_text` then maps
the formatter over the ITERATION of that string, i.e. over each individual
character; with any formatter whose `min_chars` is at least 2 (the default
is 3) every one-character line is filtered out, so `input_text` is the
empty list and `parsed_text` raises `EmptyResults` regardless of the
image's content. -/
theorem single_file_path_parser_always_empty
    (isFile : String → Bool) (ocr : String → String) (dirImages : String → List String)
    (rm : String → String → Bool) (f : BasicLinesFormatter) (p : String)
    (parse : List String → List Record)
    (h1 : isFile p = true) (h2 : 2 ≤ f.min_chars) (h3 : parse [] = []) :
    extract isFile ocr dirImages (.one p) = .text (ocr p)
    ∧ inputTextOf (BasicLinesFormatter.format rm f) (extract isFile ocr dirImages (.one p))
        = []
    ∧ parsedTextResult parse
        (inputTextOf (BasicLinesFormatter.format rm f) (extract isFile ocr dirImages (.one p)))
        = .error "No results after image conversion." := by
  have hext : extract isFile ocr dirImages (.one p) = .text (ocr p) := by
    simp [extract, extractOne, h1]
  have hinput : inputTextOf (BasicLinesFormatter.format rm f)
      (extract isFile ocr dirImages (.one p)) = [] := by
    rw [hext]
    unfold inputTextOf iterOf
    rw [List.flatten_eq_nil_iff]
    intro l hl
    simp only [List.map_map, List.mem_map] at hl
    obtain ⟨ch, _, rfl⟩ := hl
    exact format_singleton_nil rm f h2 ch
  refine ⟨hext, hinput, ?_⟩
  rw [hinput]
  simp [parsedTextResult, h3]

theorem single_file_path_parser_always_empty_witness :
    extract isFileAllW ocrTextW dirNoneW (.one "img.png") = .text "some\nOCR text!"
    ∧ inputTextOf (BasicLinesFormatter.format rmNever {})
        (extract isFileAllW ocrTextW dirNoneW (.one "img.png")) = []
    ∧ parsedTextResult (flashParseTextLines 2025)
        (inputTextOf (BasicLinesFormatter.format rmNever {})
          (extract isFileAllW ocrTextW dirNoneW (.one "img.png")))
        = .error "No results after image conversion." :=
  single_file_path_parser_always_empty isFileAllW ocrTextW dirNoneW rmNever {} "img.png"
    (flashParseTextLines 2025) rfl (by decide) rfl

end Image2Csv
